import Mathlib

/-!
Verification of the `xml2mask` annotation-to-mask pipeline (`roi.py`).

The development shallowly embeds the geometric pipeline of the repository:

* `fix_polygon` / `fix_polygon_single` — repair of invalid polygons
  (`roi.py`, `fix_polygon`): validity testing and zero-distance buffering
  are external shapely operations, so geometries are modelled as symbolic
  expressions (`GeomExpr`) and the validity check is an explicit oracle
  parameter `valid : GeomExpr → Bool`.
* `create_selection` — per-layer set algebra over additive and subtractive
  region polygons (`roi.py`, `create_selection`).
* `create_polygons` / `parse_points` / `parse_regions` — grouping of the
  vertex table into polygons, mirroring the pandas groupby (sorted keys)
  used by the source (`roi.py`, `create_polygons`, `parse_xml`).
* `create_mask` — rasterisation: shape arithmetic with Python rounding
  semantics (`pyRound`, banker's rounding) over exact rationals, and a
  canvas modelled as a total pixel function; the scan-line rasteriser
  (`skimage.draw.polygon`) is an external oracle parameter.
-/

namespace Xml2Mask

/-- Symbolic shapely geometry: raw polygons built from integer-cast vertex
lists, together with the geometric operations the pipeline applies
(`buffer(0)`, `union`, `difference`).  A term records exactly which shapely
calls produced the value. -/
inductive GeomExpr : Type
  | poly (vertices : List (Int × Int))
  | buffer0 (g : GeomExpr)
  | union (a b : GeomExpr)
  | difference (a b : GeomExpr)
  deriving Repr, DecidableEq

/-- `fix_polygon` (roi.py) restricted to one input polygon: if the polygon
fails the validity check it is replaced by its zero-distance buffer, and the
buffered geometry is returned whether or not it is valid in turn. -/
def fix_polygon_single (valid : GeomExpr → Bool) (p : GeomExpr) : GeomExpr :=
  if valid p then p else GeomExpr.buffer0 p

/-- `fix_polygon` (roi.py) on several inputs: each polygon is repaired
independently and the list of results is returned. -/
def fix_polygon (valid : GeomExpr → Bool) (polygons : List GeomExpr) : List GeomExpr :=
  polygons.map (fix_polygon_single valid)

/-- One row of the Regions table (`parse_xml`): the annotation-layer index
plus the `Selected` and `NegativeROA` attributes (integer-coded booleans,
as in the XML). -/
structure RegionRow where
  annotationId : Nat
  selected : Int
  negativeROA : Int
  deriving Repr, DecidableEq

/-- `regions.iloc[i]`, positional row access into the Regions table. -/
def regionAt (regions : List RegionRow) (i : Nat) : RegionRow :=
  regions.getD i ⟨0, 0, 0⟩

/-- The polygons of `create_selection` that survive the layer filter:
a polygon is skipped iff a layer is requested and its region's
`Annotation` differs from it. -/
def sel_included (polygons : List (Nat × GeomExpr)) (regions : List RegionRow)
    (layer : Option Nat) : List (Nat × GeomExpr) :=
  polygons.filter fun pr =>
    match layer with
    | some l => (regionAt regions pr.1).annotationId == l
    | none => true

/-- The additive polygons of `create_selection`: layer-filtered polygons
whose region has `NegativeROA` false (`bool(int(...)) == False`). -/
def sel_positive (polygons : List (Nat × GeomExpr)) (regions : List RegionRow)
    (layer : Option Nat) : List (Nat × GeomExpr) :=
  (sel_included polygons regions layer).filter fun pr =>
    !((regionAt regions pr.1).negativeROA != 0)

/-- The subtractive polygons of `create_selection`: layer-filtered polygons
whose region has `NegativeROA` true. -/
def sel_negative (polygons : List (Nat × GeomExpr)) (regions : List RegionRow)
    (layer : Option Nat) : List (Nat × GeomExpr) :=
  (sel_included polygons regions layer).filter fun pr =>
    (regionAt regions pr.1).negativeROA != 0

/-- The subtraction loop of `create_selection`: each negative polygon is
repaired and removed from the running selection in encountered order. -/
def subtract_negatives (valid : GeomExpr → Bool) (negative : List GeomExpr)
    (selection : GeomExpr) : GeomExpr :=
  negative.foldl (fun s n => s.difference (fix_polygon_single valid n)) selection

/-- `create_selection` (roi.py): partition the layer's polygons by
`NegativeROA`, repair each additive polygon, union them pairwise
(`reduce(Polygon.union, ...)`), repair the union, then subtract repaired
negative polygons.  With a single additive polygon `fix_polygon` returns the
bare polygon (not a list), so the union/re-repair step is skipped.  With no
additive polygon the function returns `None`. -/
def create_selection (valid : GeomExpr → Bool) (polygons : List (Nat × GeomExpr))
    (regions : List RegionRow) (layer : Option Nat) : Option GeomExpr :=
  let positive := (sel_positive polygons regions layer).map Prod.snd
  let negative := (sel_negative polygons regions layer).map Prod.snd
  match positive with
  | [] => none
  | [p] => some (subtract_negatives valid negative (fix_polygon_single valid p))
  | p :: rest =>
      let u := (fix_polygon valid rest).foldl GeomExpr.union (fix_polygon_single valid p)
      let selection := fix_polygon_single valid u
      some (subtract_negatives valid negative selection)

/-- Python `int(...)` on a float: truncation toward zero. -/
def pyTrunc (q : ℚ) : ℤ :=
  if 0 ≤ q then ⌊q⌋ else ⌈q⌉

/-- One row of the Points table (`parse_xml`): the enclosing annotation
index, the region index within that annotation, and the vertex
coordinates. -/
structure PointRow where
  annotationId : Nat
  region : Nat
  x : ℚ
  y : ℚ
  deriving Repr, DecidableEq

/-- The distinct keys of a pandas `groupby`, in ascending order. -/
def sortedKeys (l : List Nat) : List Nat :=
  (l.insertionSort (· ≤ ·)).dedup

/-- Pandas `groupby`: one group per distinct key, groups ordered by
ascending key, rows inside a group keeping their original order. -/
def groupsBy {α : Type} (key : α → Nat) (l : List α) : List (List α) :=
  (sortedKeys (l.map key)).map fun k => l.filter fun x => key x == k

/-- The sequence of `(annotation, region)` vertex groups traversed by
`create_polygons`: groupby on `Annotation`, then groupby on `Region`
inside each annotation group. -/
def pointGroups (points : List PointRow) : List (List PointRow) :=
  (groupsBy (fun p => p.annotationId) points).flatMap fun grp =>
    groupsBy (fun p => p.region) grp

/-- `create_polygons` (roi.py): every `(annotation, region)` vertex group is
assigned a `Polygon_ID` from a counter that advances once per group; groups
with fewer than 3 vertices are skipped (the counter still advances), the
rest become polygons with float→int truncated coordinates. -/
def create_polygons (points : List PointRow) : List (Nat × List (Int × Int)) :=
  (pointGroups points).enum.filterMap fun cg =>
    if cg.2.length < 3 then none
    else some (cg.1, cg.2.map fun p => (pyTrunc p.x, pyTrunc p.y))

/-- A `Vertex` tag of the annotation XML. -/
structure VertexTag where
  x : ℚ
  y : ℚ
  deriving Repr, DecidableEq

/-- A `Region` tag of the annotation XML: its attribute fields used by the
pipeline and its vertex list. -/
structure RegionTag where
  selected : Int
  negativeROA : Int
  vertices : List VertexTag
  deriving Repr, DecidableEq

/-- An `Annotation` tag of the annotation XML: its list of regions. -/
structure AnnotationTag where
  regions : List RegionTag
  deriving Repr, DecidableEq

/-- An annotation XML document: its list of annotation layers. -/
abbrev XmlDoc := List AnnotationTag

/-- The Points-table rows of one region: one row per vertex, tagged with
the annotation index `a` and the region index `r`. -/
def regionRows (a r : Nat) (reg : RegionTag) : List PointRow :=
  reg.vertices.map fun v => { annotationId := a, region := r, x := v.x, y := v.y }

/-- The Points-table rows of one annotation: rows of all its regions, in
region-enumeration order. -/
def annRows (a : Nat) (ann : AnnotationTag) : List PointRow :=
  ann.regions.enum.flatMap fun rn => regionRows a rn.1 rn.2

/-- The Points table built by `parse_xml`: one row per vertex, carrying the
enumeration index of the enclosing annotation and the enumeration index of
the region within its annotation. -/
def parse_points (xml : XmlDoc) : List PointRow :=
  xml.enum.flatMap fun an => annRows an.1 an.2

/-- The Regions table built by `parse_xml`: one row per region, in document
order, carrying the annotation index and the region attributes; the
positional index of a row is its `Region_ID`. -/
def parse_regions (xml : XmlDoc) : List RegionRow :=
  xml.enum.flatMap fun an =>
    an.2.regions.map fun reg =>
      { annotationId := an.1, selected := reg.selected, negativeROA := reg.negativeROA }

/-- All regions of the document in document order (the order of the rows of
the Regions table). -/
def regionsFlat (xml : XmlDoc) : List RegionTag :=
  xml.flatMap fun ann => ann.regions

/-- Python 3 `round(...)` to an integer: round half to even. -/
def pyRound (q : ℚ) : ℤ :=
  if q - ⌊q⌋ < 1/2 then ⌊q⌋
  else if 1/2 < q - ⌊q⌋ then ⌊q⌋ + 1
  else if ⌊q⌋ % 2 = 0 then ⌊q⌋ else ⌊q⌋ + 1

/-- One connected part of a shapely geometry as consumed by `create_mask`:
its exterior ring and its interior (hole) rings, as coordinate lists. -/
structure PolyPart where
  exterior : List (ℚ × ℚ)
  interiors : List (List (ℚ × ℚ))
  deriving Repr, DecidableEq

/-- A selection geometry for rasterisation: the list of its parts
(`create_mask` treats a single polygon and a multi-part geometry through
the same per-part loop). -/
abbrev Selection := List PolyPart

/-- Every coordinate of the geometry (exterior and interior rings). -/
def allCoords (sel : Selection) : List (ℚ × ℚ) :=
  sel.flatMap fun part => part.exterior ++ part.interiors.flatMap id

/-- Shapely `bounds`: `(xmin, ymin, xmax, ymax)` over all coordinates of
the geometry. -/
def boundsOf (sel : Selection) : ℚ × ℚ × ℚ × ℚ :=
  match allCoords sel with
  | [] => (0, 0, 0, 0)
  | c :: cs =>
      (cs.foldl (fun m q => min m q.1) c.1,
       cs.foldl (fun m q => min m q.2) c.2,
       cs.foldl (fun m q => max m q.1) c.1,
       cs.foldl (fun m q => max m q.2) c.2)

/-- The mask canvas: an unbounded pixel function `(row, col) ↦ value`
standing for the numpy array (entries outside the shape are irrelevant). -/
def Canvas : Type := Nat × Nat → Nat

/-- `canvas[rr, cc] = v` for a uint8 canvas: the listed pixels take the
value `v % 256`, the rest keep their previous values. -/
def writePixels (c : Canvas) (pts : List (Nat × Nat)) (v : Nat) : Canvas :=
  fun rc => if pts.contains rc then v % 256 else c rc

/-- A rasterisation oracle standing for `skimage.draw.polygon`: from the
row coordinates, the column coordinates and the canvas shape it returns
the pixels to paint. -/
def Rasterizer : Type := List ℚ → List ℚ → Int × Int → List (Nat × Nat)

/-- The result of `create_mask`: the canvas shape `(rows, cols)` and the
pixel values. -/
structure MaskResult where
  rows : Int
  cols : Int
  pix : Canvas

/-- `create_mask` (roi.py).  Scale resolution: with both `target_shape` and
`original_shape` the scale is re-derived as their componentwise ratio; with
only `target_shape` it is derived from the selection's raw bounding box.
FOV: with `original_shape` the canvas spans the scaled image
(`round(dim * scale) - 1` per axis, origin 0); otherwise it is the scaled,
rounded bounding box of the selection (`+1` inclusive arithmetic).  The
canvas starts at zero; each part's exterior ring is filled with
`fill_value`, then every interior ring is cleared back to 0; `invert`
replaces each value `v` by `fill_value - v` (uint8 arithmetic). -/
def mask_scale (sel : Selection) (original_shape : Option (Nat × Nat))
    (target_shape : Option (Nat × Nat)) (scale_x scale_y : ℚ) : ℚ × ℚ :=
  match target_shape, original_shape with
  | some t, some o => (((t.2 : ℚ) / (o.2 : ℚ)), ((t.1 : ℚ) / (o.1 : ℚ)))
  | some t, none =>
      (((t.2 : ℚ) / (pyTrunc ((boundsOf sel).2.2.1 - (boundsOf sel).1 + 1) : ℚ)),
       ((t.1 : ℚ) / (pyTrunc ((boundsOf sel).2.2.2 - (boundsOf sel).2.1 + 1) : ℚ)))
  | none, _ => (scale_x, scale_y)

/-- The field of view of `create_mask`: `(xmin, ymin, xmax, ymax)` in
scaled, rounded pixel coordinates. -/
def mask_fov (sel : Selection) (original_shape : Option (Nat × Nat))
    (sx sy : ℚ) : Int × Int × Int × Int :=
  match original_shape with
  | none =>
      (pyRound ((boundsOf sel).1 * sx), pyRound ((boundsOf sel).2.1 * sy),
       pyRound ((boundsOf sel).2.2.1 * sx), pyRound ((boundsOf sel).2.2.2 * sy))
  | some o =>
      (0, 0, pyRound ((o.2 : ℚ) * sx) - 1, pyRound ((o.1 : ℚ) * sy) - 1)

/-- The canvas shape of `create_mask`: `(rows, cols)` from the inclusive
field-of-view bounds. -/
def mask_shape (sel : Selection) (original_shape : Option (Nat × Nat))
    (target_shape : Option (Nat × Nat)) (scale_x scale_y : ℚ) : Int × Int :=
  ((mask_fov sel original_shape
      (mask_scale sel original_shape target_shape scale_x scale_y).1
      (mask_scale sel original_shape target_shape scale_x scale_y).2).2.2.2 -
   (mask_fov sel original_shape
      (mask_scale sel original_shape target_shape scale_x scale_y).1
      (mask_scale sel original_shape target_shape scale_x scale_y).2).2.1 + 1,
   (mask_fov sel original_shape
      (mask_scale sel original_shape target_shape scale_x scale_y).1
      (mask_scale sel original_shape target_shape scale_x scale_y).2).2.2.1 -
   (mask_fov sel original_shape
      (mask_scale sel original_shape target_shape scale_x scale_y).1
      (mask_scale sel original_shape target_shape scale_x scale_y).2).1 + 1)

/-- The exterior-contour pass of `create_mask`: starting from the zero
canvas, each part's scaled, translated exterior ring is rasterised and
filled with `fill_value`. -/
def mask_fill_pass (rast : Rasterizer) (sel : Selection) (sx sy : ℚ)
    (xmin ymin : Int) (shape : Int × Int) (fill_value : Nat) : Canvas :=
  sel.foldl (fun c part =>
    writePixels c
      (rast (part.exterior.map fun p => p.2 * sy - (ymin : ℚ))
            (part.exterior.map fun p => p.1 * sx - (xmin : ℚ)) shape)
      fill_value) (fun _ => 0)

/-- The interior-contour pass of `create_mask`: every hole ring of every
part is rasterised and cleared back to 0, after all exterior fills. -/
def mask_clear_pass (rast : Rasterizer) (sel : Selection) (sx sy : ℚ)
    (xmin ymin : Int) (shape : Int × Int) (canvas : Canvas) : Canvas :=
  sel.foldl (fun c part =>
    part.interiors.foldl (fun c ring =>
      writePixels c
        (rast (ring.map fun p => p.2 * sy - (ymin : ℚ))
              (ring.map fun p => p.1 * sx - (xmin : ℚ)) shape)
        0) c) canvas

/-- The `invert` step of `create_mask`: `fill_value - canvas` in uint8
arithmetic. -/
def mask_invert (fill_value : Nat) (canvas : Canvas) : Canvas :=
  fun rc => ((((fill_value : Int) - (canvas rc : Int)) % 256).toNat)

def create_mask (sel : Selection) (original_shape : Option (Nat × Nat))
    (target_shape : Option (Nat × Nat)) (scale_x scale_y : ℚ)
    (invert : Bool) (fill_value : Nat) (rast : Rasterizer) : MaskResult :=
  -- Set scale to match target shape
  let sxy := mask_scale sel original_shape target_shape scale_x scale_y
  let sx := sxy.1
  let sy := sxy.2
  -- Define FOV
  let fov := mask_fov sel original_shape sx sy
  let xmin := fov.1
  let ymin := fov.2.1
  let xmax := fov.2.2.1
  let ymax := fov.2.2.2
  let shape : Int × Int := (ymax - ymin + 1, xmax - xmin + 1)
  -- Define canvas; fill exterior contours, then clear internal contours
  let canvas2 := mask_clear_pass rast sel sx sy xmin ymin shape
    (mask_fill_pass rast sel sx sy xmin ymin shape fill_value)
  let final : Canvas :=
    if invert then mask_invert fill_value canvas2 else canvas2
  { rows := shape.1, cols := shape.2, pix := final }

/-! ## Claim theorems: selection algebra and polygon repair -/

/-- C6: whenever the layer's filtered polygon set contains no additive
polygon — in particular a layer with only subtractive polygons —
`create_selection` returns `None` ("no selection") rather than an error or
an empty geometry. -/
theorem C6_no_additive_returns_none (valid : GeomExpr → Bool)
    (polygons : List (Nat × GeomExpr)) (regions : List RegionRow) (layer : Option Nat)
    (h : sel_positive polygons regions layer = []) :
    create_selection valid polygons regions layer = none := by
  simp [create_selection, h]

/-- Witness for C6: a layer containing only subtractive (`NegativeROA = 1`)
polygons yields no selection. -/
theorem C6_no_additive_returns_none_witness :
    create_selection (fun _ => true)
      [(0, GeomExpr.poly [(0, 0), (1, 0), (0, 1)])] [⟨0, 1, 1⟩] none = none :=
  C6_no_additive_returns_none _ _ _ _ (by decide)

/-- C8: `fix_polygon` is total on every input list (one output per input,
no abort): an invalid polygon is replaced by its zero-distance buffer, and
that best-effort geometry is returned even when the validity oracle rejects
the buffered result as well (no hypothesis on `valid (p.buffer0)` is
needed). -/
theorem C8_fix_polygon_best_effort (valid : GeomExpr → Bool)
    (ps : List GeomExpr) (p : GeomExpr) (hp : p ∈ ps) (hinv : valid p = false) :
    (fix_polygon valid ps).length = ps.length ∧
    fix_polygon_single valid p = GeomExpr.buffer0 p ∧
    GeomExpr.buffer0 p ∈ fix_polygon valid ps := by
  refine ⟨by simp [fix_polygon], by simp [fix_polygon_single, hinv], ?_⟩
  have : fix_polygon_single valid p = GeomExpr.buffer0 p := by
    simp [fix_polygon_single, hinv]
  exact this ▸ List.mem_map_of_mem (fix_polygon_single valid) hp

/-- Witness for C8: with an oracle rejecting every geometry (so the
buffered geometry is itself still invalid), repair still returns the
buffered polygon. -/
theorem C8_fix_polygon_best_effort_witness :
    (fix_polygon (fun _ => false) [GeomExpr.poly [(0, 0), (1, 0), (0, 1)]]).length = 1 ∧
    fix_polygon_single (fun _ => false) (GeomExpr.poly [(0, 0), (1, 0), (0, 1)]) =
      GeomExpr.buffer0 (GeomExpr.poly [(0, 0), (1, 0), (0, 1)]) ∧
    GeomExpr.buffer0 (GeomExpr.poly [(0, 0), (1, 0), (0, 1)]) ∈
      fix_polygon (fun _ => false) [GeomExpr.poly [(0, 0), (1, 0), (0, 1)]] :=
  C8_fix_polygon_best_effort _ _ _ (by decide) (by decide)

/-- C9: repairing polygons that already pass the validity check is a no-op:
`fix_polygon` returns them unchanged. -/
theorem C9_fix_polygon_idempotent (valid : GeomExpr → Bool) (ps : List GeomExpr)
    (h : ∀ p ∈ ps, valid p = true) :
    fix_polygon valid ps = ps := by
  unfold fix_polygon
  induction ps with
  | nil => rfl
  | cons a l ih =>
      simp only [List.map_cons]
      rw [ih fun p hp => h p (List.mem_cons_of_mem a hp)]
      simp [fix_polygon_single, h a (List.mem_cons_self a l)]

/-- Witness for C9: a valid polygon passes through repair unchanged. -/
theorem C9_fix_polygon_idempotent_witness :
    fix_polygon (fun _ => true) [GeomExpr.poly [(0, 0), (1, 0), (0, 1)]] =
      [GeomExpr.poly [(0, 0), (1, 0), (0, 1)]] :=
  C9_fix_polygon_idempotent _ _ (by decide)

/-- C4: membership in the additive/subtractive partition depends only on
the region's `NegativeROA` flag (additive iff the flag is 0, subtractive
iff it is nonzero), and the `Selected` flag — although read — never
excludes a polygon: two Region tables equal in `Annotation` and
`NegativeROA` but arbitrary in `Selected` give identical selections. -/
theorem C4_partition_by_nroa_only (polygons : List (Nat × GeomExpr))
    (regions regions' : List RegionRow) (layer : Option Nat)
    (pr : Nat × GeomExpr) (valid : GeomExpr → Bool)
    (hlen : regions'.length = regions.length)
    (hattr : ∀ i, i < regions.length →
      (regionAt regions' i).annotationId = (regionAt regions i).annotationId ∧
      (regionAt regions' i).negativeROA = (regionAt regions i).negativeROA) :
    (pr ∈ sel_positive polygons regions layer ↔
      pr ∈ sel_included polygons regions layer ∧ (regionAt regions pr.1).negativeROA = 0) ∧
    (pr ∈ sel_negative polygons regions layer ↔
      pr ∈ sel_included polygons regions layer ∧ (regionAt regions pr.1).negativeROA ≠ 0) ∧
    create_selection valid polygons regions' layer =
      create_selection valid polygons regions layer := by
  have hAt : ∀ i, (regionAt regions' i).annotationId = (regionAt regions i).annotationId ∧
      (regionAt regions' i).negativeROA = (regionAt regions i).negativeROA := by
    intro i
    by_cases hi : i < regions.length
    · exact hattr i hi
    · have h1 : regions.length ≤ i := le_of_not_lt hi
      have h2 : regions'.length ≤ i := hlen ▸ h1
      rw [regionAt, regionAt, List.getD_eq_default _ _ h1, List.getD_eq_default _ _ h2]
      exact ⟨rfl, rfl⟩
  have hinc : sel_included polygons regions' layer = sel_included polygons regions layer := by
    unfold sel_included
    apply List.filter_congr
    intro x _
    cases layer with
    | none => rfl
    | some l => simp [(hAt x.1).1]
  have hpos : sel_positive polygons regions' layer = sel_positive polygons regions layer := by
    unfold sel_positive
    rw [hinc]
    apply List.filter_congr
    intro x _
    simp [(hAt x.1).2]
  have hneg : sel_negative polygons regions' layer = sel_negative polygons regions layer := by
    unfold sel_negative
    rw [hinc]
    apply List.filter_congr
    intro x _
    simp [(hAt x.1).2]
  refine ⟨?_, ?_, ?_⟩
  · simp [sel_positive, List.mem_filter]
  · simp [sel_negative, List.mem_filter]
  · unfold create_selection
    rw [hpos, hneg]

/-- Witness for C4: flipping the `Selected` attribute changes neither the
partition characterisation nor the selection. -/
theorem C4_partition_by_nroa_only_witness :
    ((0, GeomExpr.poly [(0, 0), (1, 0), (0, 1)]) ∈
        sel_positive [(0, GeomExpr.poly [(0, 0), (1, 0), (0, 1)])] [⟨0, 1, 0⟩] none ↔
      (0, GeomExpr.poly [(0, 0), (1, 0), (0, 1)]) ∈
        sel_included [(0, GeomExpr.poly [(0, 0), (1, 0), (0, 1)])] [⟨0, 1, 0⟩] none ∧
      (regionAt [⟨0, 1, 0⟩] 0).negativeROA = 0) ∧
    ((0, GeomExpr.poly [(0, 0), (1, 0), (0, 1)]) ∈
        sel_negative [(0, GeomExpr.poly [(0, 0), (1, 0), (0, 1)])] [⟨0, 1, 0⟩] none ↔
      (0, GeomExpr.poly [(0, 0), (1, 0), (0, 1)]) ∈
        sel_included [(0, GeomExpr.poly [(0, 0), (1, 0), (0, 1)])] [⟨0, 1, 0⟩] none ∧
      (regionAt [⟨0, 1, 0⟩] 0).negativeROA ≠ 0) ∧
    create_selection (fun _ => true) [(0, GeomExpr.poly [(0, 0), (1, 0), (0, 1)])]
        [⟨0, 0, 0⟩] none =
      create_selection (fun _ => true) [(0, GeomExpr.poly [(0, 0), (1, 0), (0, 1)])]
        [⟨0, 1, 0⟩] none :=
  C4_partition_by_nroa_only _ _ _ _ _ _ (by decide) (by decide)

/-- C1 counterexample: with two additive polygons, the accumulated union
IS re-validated and repaired — `create_selection` applies `fix_polygon` to
the pairwise union (roi.py line 365), so with an oracle that rejects the
union the selection is the buffered union, not the raw union the claim
predicts. -/
theorem C1_cex :
    create_selection (fun g => match g with | .union _ _ => false | _ => true)
        [(0, GeomExpr.poly [(0, 0), (1, 0), (0, 1)]),
         (1, GeomExpr.poly [(2, 2), (3, 2), (2, 3)])]
        [⟨0, 1, 0⟩, ⟨0, 1, 0⟩] none =
      some (GeomExpr.buffer0 (GeomExpr.union (GeomExpr.poly [(0, 0), (1, 0), (0, 1)])
        (GeomExpr.poly [(2, 2), (3, 2), (2, 3)]))) ∧
    some (GeomExpr.buffer0 (GeomExpr.union (GeomExpr.poly [(0, 0), (1, 0), (0, 1)])
        (GeomExpr.poly [(2, 2), (3, 2), (2, 3)]))) ≠
      some (GeomExpr.union (GeomExpr.poly [(0, 0), (1, 0), (0, 1)])
        (GeomExpr.poly [(2, 2), (3, 2), (2, 3)])) := by
  decide

/-- C1 (amended): when two or more additive polygons are present,
`fix_polygon` is applied to each polygon before unioning AND the
accumulated union is re-checked: the selection is the raw union only when
the union passes the validity check, and the buffered (repaired) union
otherwise. -/
theorem C1_union_is_refixed (valid : GeomExpr → Bool)
    (polygons : List (Nat × GeomExpr)) (regions : List RegionRow) (layer : Option Nat)
    (p q : GeomExpr) (rest : List GeomExpr)
    (hpos : (sel_positive polygons regions layer).map Prod.snd = p :: q :: rest)
    (hneg : (sel_negative polygons regions layer).map Prod.snd = []) :
    create_selection valid polygons regions layer =
      some (if valid ((fix_polygon valid (q :: rest)).foldl GeomExpr.union
                        (fix_polygon_single valid p))
            then (fix_polygon valid (q :: rest)).foldl GeomExpr.union
                   (fix_polygon_single valid p)
            else GeomExpr.buffer0 ((fix_polygon valid (q :: rest)).foldl GeomExpr.union
                   (fix_polygon_single valid p))) := by
  unfold create_selection
  rw [hpos, hneg]
  simp [subtract_negatives, fix_polygon_single]

/-- Witness for C1 (amended): concrete two-polygon input with an oracle
rejecting the union; the selection is the buffered union. -/
theorem C1_union_is_refixed_witness :
    create_selection (fun g => match g with | .union _ _ => false | _ => true)
        [(0, GeomExpr.poly [(0, 0), (2, 0), (0, 2)]),
         (1, GeomExpr.poly [(1, 1), (3, 1), (1, 3)])]
        [⟨0, 0, 0⟩, ⟨0, 0, 0⟩] (some 0) =
      some (if (fun g => match g with | .union _ _ => false | _ => true)
                ((fix_polygon (fun g => match g with | .union _ _ => false | _ => true)
                    [GeomExpr.poly [(1, 1), (3, 1), (1, 3)]]).foldl GeomExpr.union
                  (fix_polygon_single (fun g => match g with | .union _ _ => false | _ => true)
                    (GeomExpr.poly [(0, 0), (2, 0), (0, 2)])))
            then (fix_polygon (fun g => match g with | .union _ _ => false | _ => true)
                    [GeomExpr.poly [(1, 1), (3, 1), (1, 3)]]).foldl GeomExpr.union
                  (fix_polygon_single (fun g => match g with | .union _ _ => false | _ => true)
                    (GeomExpr.poly [(0, 0), (2, 0), (0, 2)]))
            else GeomExpr.buffer0
                 ((fix_polygon (fun g => match g with | .union _ _ => false | _ => true)
                    [GeomExpr.poly [(1, 1), (3, 1), (1, 3)]]).foldl GeomExpr.union
                  (fix_polygon_single (fun g => match g with | .union _ _ => false | _ => true)
                    (GeomExpr.poly [(0, 0), (2, 0), (0, 2)])))) :=
  C1_union_is_refixed _ _ _ _
    (GeomExpr.poly [(0, 0), (2, 0), (0, 2)]) (GeomExpr.poly [(1, 1), (3, 1), (1, 3)]) []
    (by decide) (by decide)

/-! ## Claim theorems: rasterisation -/

theorem floor_le_pyRound (q : ℚ) : ⌊q⌋ ≤ pyRound q := by
  unfold pyRound
  split_ifs <;> omega

theorem pyRound_le_floor_add_one (q : ℚ) : pyRound q ≤ ⌊q⌋ + 1 := by
  unfold pyRound
  split_ifs <;> omega

theorem pyRound_mono {q r : ℚ} (h : q ≤ r) : pyRound q ≤ pyRound r := by
  have hf : ⌊q⌋ ≤ ⌊r⌋ := Int.floor_le_floor h
  by_cases hlt : ⌊q⌋ < ⌊r⌋
  · calc pyRound q ≤ ⌊q⌋ + 1 := pyRound_le_floor_add_one q
      _ ≤ ⌊r⌋ := hlt
      _ ≤ pyRound r := floor_le_pyRound r
  · have heq : ⌊q⌋ = ⌊r⌋ := le_antisymm hf (not_lt.1 hlt)
    unfold pyRound
    rw [heq]
    split_ifs <;> first | omega | linarith

theorem pyRound_intCast (n : ℤ) : pyRound (n : ℚ) = n := by
  simp [pyRound]

theorem pyRound_natCast (n : ℕ) : pyRound (n : ℚ) = n := by
  have : ((n : ℤ) : ℚ) = (n : ℚ) := by push_cast; rfl
  rw [← this, pyRound_intCast]

/-- `create_mask` only computes its canvas shape through `mask_shape`. -/
theorem create_mask_shape (sel : Selection) (o t : Option (Nat × Nat))
    (sx sy : ℚ) (inv : Bool) (fill : Nat) (rast : Rasterizer) :
    (create_mask sel o t sx sy inv fill rast).rows = (mask_shape sel o t sx sy).1 ∧
    (create_mask sel o t sx sy inv fill rast).cols = (mask_shape sel o t sx sy).2 :=
  ⟨rfl, rfl⟩

theorem foldl_min_le {α : Type} (f : α → ℚ) :
    ∀ (l : List α) (a : ℚ), l.foldl (fun m x => min m (f x)) a ≤ a := by
  intro l
  induction l with
  | nil => intro a; simp
  | cons x xs ih =>
      intro a
      calc (x :: xs).foldl (fun m x => min m (f x)) a
          = xs.foldl (fun m x => min m (f x)) (min a (f x)) := rfl
        _ ≤ min a (f x) := ih _
        _ ≤ a := min_le_left _ _

theorem le_foldl_max {α : Type} (f : α → ℚ) :
    ∀ (l : List α) (a : ℚ), a ≤ l.foldl (fun m x => max m (f x)) a := by
  intro l
  induction l with
  | nil => intro a; simp
  | cons x xs ih =>
      intro a
      calc a ≤ max a (f x) := le_max_left _ _
        _ ≤ xs.foldl (fun m x => max m (f x)) (max a (f x)) := ih _
        _ = (x :: xs).foldl (fun m x => max m (f x)) a := rfl

/-- The bounding box of a nonempty geometry is well ordered. -/
theorem boundsOf_le (sel : Selection) (h : allCoords sel ≠ []) :
    (boundsOf sel).1 ≤ (boundsOf sel).2.2.1 ∧
    (boundsOf sel).2.1 ≤ (boundsOf sel).2.2.2 := by
  unfold boundsOf
  cases hc : allCoords sel with
  | nil => exact absurd hc h
  | cons c cs =>
      constructor
      · calc cs.foldl (fun m q => min m q.1) c.1 ≤ c.1 := foldl_min_le Prod.fst cs c.1
          _ ≤ cs.foldl (fun m q => max m q.1) c.1 := le_foldl_max Prod.fst cs c.1
      · calc cs.foldl (fun m q => min m q.2) c.2 ≤ c.2 := foldl_min_le Prod.snd cs c.2
          _ ≤ cs.foldl (fun m q => max m q.2) c.2 := le_foldl_max Prod.snd cs c.2

/-- C5: when both `target_shape` and `original_shape` are given, the mask
shape equals `target_shape` exactly, whatever `scale_x` and `scale_y` were
passed in (the scale is re-derived as `target_shape / original_shape`). -/
theorem C5_target_shape_exact (sel : Selection) (o t : Nat × Nat)
    (sx sy : ℚ) (inv : Bool) (fill : Nat) (rast : Rasterizer)
    (ho1 : 0 < o.1) (ho2 : 0 < o.2) :
    (create_mask sel (some o) (some t) sx sy inv fill rast).rows = t.1 ∧
    (create_mask sel (some o) (some t) sx sy inv fill rast).cols = t.2 := by
  have hs := create_mask_shape sel (some o) (some t) sx sy inv fill rast
  rw [hs.1, hs.2]
  have h1 : ((o.1 : ℚ)) ≠ 0 := by positivity
  have h2 : ((o.2 : ℚ)) ≠ 0 := by positivity
  have e1 : (o.1 : ℚ) * ((t.1 : ℚ) / (o.1 : ℚ)) = (t.1 : ℚ) := by field_simp
  have e2 : (o.2 : ℚ) * ((t.2 : ℚ) / (o.2 : ℚ)) = (t.2 : ℚ) := by field_simp
  unfold mask_shape mask_scale mask_fov
  simp only [e1, e2, pyRound_natCast]
  omega

/-- Witness for C5: `original_shape = (10, 20)`, `target_shape = (3, 7)`,
scale arguments `1/100` are overridden and the mask is `3 × 7`. -/
theorem C5_target_shape_exact_witness :
    (create_mask [⟨[(0, 0), (4, 0), (4, 4), (0, 4)], []⟩] (some (10, 20)) (some (3, 7))
      (1/100) (1/100) false 255 (fun _ _ _ => [])).rows = (3 : Nat) ∧
    (create_mask [⟨[(0, 0), (4, 0), (4, 4), (0, 4)], []⟩] (some (10, 20)) (some (3, 7))
      (1/100) (1/100) false 255 (fun _ _ _ => [])).cols = (7 : Nat) :=
  C5_target_shape_exact _ _ _ _ _ _ _ _ (by decide) (by decide)

/-- C2 counterexample: the mask dimensions are NOT always positive.  With
`original_shape = (10, 10)`, positive scales `1/100`, no target shape and a
nonempty selection, `round(10 * 1/100) - 1 = -1`, so the mask has 0 rows
and 0 columns. -/
theorem C2_cex :
    (create_mask [⟨[(0, 0), (4, 0), (4, 4), (0, 4)], []⟩] (some (10, 10)) none
      (1/100) (1/100) false 255 (fun _ _ _ => [])).rows = 0 ∧
    ¬ (1 ≤ (create_mask [⟨[(0, 0), (4, 0), (4, 4), (0, 4)], []⟩] (some (10, 10)) none
      (1/100) (1/100) false 255 (fun _ _ _ => [])).rows) := by
  have h : (create_mask [⟨[(0, 0), (4, 0), (4, 4), (0, 4)], []⟩] (some (10, 10)) none
      (1/100) (1/100) false 255 (fun _ _ _ => [])).rows = 0 := by
    rw [(create_mask_shape _ _ _ _ _ _ _ _).1]
    norm_num [mask_shape, mask_scale, mask_fov, pyRound]
  exact ⟨h, by rw [h]; decide⟩

/-- C2 (amended): whenever `original_shape` is absent (the bounding-box
branch, whose "+1" inclusive arithmetic the guarantee refers to), a
nonempty selection and positive scales give a mask with at least one row
and one column, with or without a `target_shape`; when `original_shape` is
supplied, a dimension can round down to zero (see the counterexample). -/
theorem C2_bbox_mask_nonempty (sel : Selection) (target : Option (Nat × Nat))
    (sx sy : ℚ) (inv : Bool) (fill : Nat) (rast : Rasterizer)
    (hne : allCoords sel ≠ []) (hsx : 0 < sx) (hsy : 0 < sy) :
    1 ≤ (create_mask sel none target sx sy inv fill rast).rows ∧
    1 ≤ (create_mask sel none target sx sy inv fill rast).cols := by
  have hs := create_mask_shape sel none target sx sy inv fill rast
  rw [hs.1, hs.2]
  obtain ⟨hx, hy⟩ := boundsOf_le sel hne
  have hsx' : 0 ≤ (mask_scale sel none target sx sy).1 ∧
      0 ≤ (mask_scale sel none target sx sy).2 := by
    cases target with
    | none => exact ⟨le_of_lt hsx, le_of_lt hsy⟩
    | some t =>
        unfold mask_scale
        constructor
        · apply div_nonneg (Nat.cast_nonneg _)
          have h1 : (1 : ℚ) ≤ (boundsOf sel).2.2.1 - (boundsOf sel).1 + 1 := by linarith
          have : (1 : ℤ) ≤ pyTrunc ((boundsOf sel).2.2.1 - (boundsOf sel).1 + 1) := by
            rw [pyTrunc, if_pos (by linarith)]
            exact Int.le_floor.2 (by push_cast; linarith)
          exact_mod_cast le_trans (by norm_num) this
        · apply div_nonneg (Nat.cast_nonneg _)
          have h1 : (1 : ℚ) ≤ (boundsOf sel).2.2.2 - (boundsOf sel).2.1 + 1 := by linarith
          have : (1 : ℤ) ≤ pyTrunc ((boundsOf sel).2.2.2 - (boundsOf sel).2.1 + 1) := by
            rw [pyTrunc, if_pos (by linarith)]
            exact Int.le_floor.2 (by push_cast; linarith)
          exact_mod_cast le_trans (by norm_num) this
  obtain ⟨hsx0, hsy0⟩ := hsx'
  have hmx : pyRound ((boundsOf sel).1 * (mask_scale sel none target sx sy).1) ≤
      pyRound ((boundsOf sel).2.2.1 * (mask_scale sel none target sx sy).1) :=
    pyRound_mono (mul_le_mul_of_nonneg_right hx hsx0)
  have hmy : pyRound ((boundsOf sel).2.1 * (mask_scale sel none target sx sy).2) ≤
      pyRound ((boundsOf sel).2.2.2 * (mask_scale sel none target sx sy).2) :=
    pyRound_mono (mul_le_mul_of_nonneg_right hy hsy0)
  simp only [mask_shape, mask_fov]
  constructor
  · omega
  · omega

/-- Witness for C2 (amended): the unit square with scale 3 and no
`original_shape` has positive mask dimensions. -/
theorem C2_bbox_mask_nonempty_witness :
    allCoords [⟨[(0, 0), (1, 0), (1, 1), (0, 1)], []⟩] ≠ [] ∧
    (1 ≤ (create_mask [⟨[(0, 0), (1, 0), (1, 1), (0, 1)], []⟩] none none
      3 3 false 255 (fun _ _ _ => [])).rows ∧
    1 ≤ (create_mask [⟨[(0, 0), (1, 0), (1, 1), (0, 1)], []⟩] none none
      3 3 false 255 (fun _ _ _ => [])).cols) :=
  ⟨by simp [allCoords],
   C2_bbox_mask_nonempty _ _ _ _ _ _ _ (by simp [allCoords]) (by norm_num) (by norm_num)⟩

theorem foldl_preserve {α β : Type} (P : α → Prop) (f : α → β → α)
    (hf : ∀ a b, P a → P (f a b)) :
    ∀ (l : List β) (a : α), P a → P (l.foldl f a) := by
  intro l
  induction l with
  | nil => intro a ha; exact ha
  | cons x xs ih => intro a ha; exact ih (f a x) (hf a x ha)

theorem writePixels_eq_or (c : Canvas) (pts : List (Nat × Nat)) (v : Nat)
    (rc : Nat × Nat) :
    writePixels c pts v rc = v % 256 ∨ writePixels c pts v rc = c rc := by
  unfold writePixels
  by_cases h : pts.contains rc = true
  · rw [if_pos h]; exact Or.inl rfl
  · rw [if_neg h]; exact Or.inr rfl

/-- After the exterior-fill and interior-clear passes every pixel is
either 0 or `fill % 256`. -/
theorem mask_canvas_two_valued (rast : Rasterizer) (sel : Selection)
    (sx sy : ℚ) (xmin ymin : Int) (shape : Int × Int) (fill : Nat) :
    ∀ rc, mask_clear_pass rast sel sx sy xmin ymin shape
        (mask_fill_pass rast sel sx sy xmin ymin shape fill) rc = 0 ∨
      mask_clear_pass rast sel sx sy xmin ymin shape
        (mask_fill_pass rast sel sx sy xmin ymin shape fill) rc = fill % 256 := by
  have hfillp : ∀ rc, mask_fill_pass rast sel sx sy xmin ymin shape fill rc = 0 ∨
      mask_fill_pass rast sel sx sy xmin ymin shape fill rc = fill % 256 := by
    unfold mask_fill_pass
    apply foldl_preserve (P := fun c : Canvas => ∀ rc, c rc = 0 ∨ c rc = fill % 256)
    · intro c part hc rc
      rcases writePixels_eq_or c _ fill rc with h | h
      · exact Or.inr h
      · exact h ▸ hc rc
    · intro rc; exact Or.inl rfl
  unfold mask_clear_pass
  apply foldl_preserve (P := fun c : Canvas => ∀ rc, c rc = 0 ∨ c rc = fill % 256)
  · intro c part hc
    apply foldl_preserve (P := fun c : Canvas => ∀ rc, c rc = 0 ∨ c rc = fill % 256)
    · intro c ring hc' rc
      rcases writePixels_eq_or c _ 0 rc with h | h
      · exact Or.inl (by simpa using h)
      · exact h ▸ hc' rc
    · exact hc
  · exact hfillp

/-- Inversion keeps the value set `{0, fill}` when `fill ≤ 255`. -/
theorem mask_invert_two_valued (fill : Nat) (c : Canvas) (hfill : fill ≤ 255)
    (hc : ∀ rc, c rc = 0 ∨ c rc = fill) :
    ∀ rc, mask_invert fill c rc = 0 ∨ mask_invert fill c rc = fill := by
  intro rc
  rcases hc rc with h | h
  · right
    rw [mask_invert, h]
    omega
  · left
    rw [mask_invert, h]
    omega

/-- The pixel function of `create_mask`, written through the named canvas
passes. -/
theorem create_mask_pix (sel : Selection) (o t : Option (Nat × Nat))
    (sx sy : ℚ) (inv : Bool) (fill : Nat) (rast : Rasterizer) :
    (create_mask sel o t sx sy inv fill rast).pix =
      (if inv then
        mask_invert fill (mask_clear_pass rast sel
          (mask_scale sel o t sx sy).1 (mask_scale sel o t sx sy).2
          (mask_fov sel o (mask_scale sel o t sx sy).1 (mask_scale sel o t sx sy).2).1
          (mask_fov sel o (mask_scale sel o t sx sy).1 (mask_scale sel o t sx sy).2).2.1
          (mask_shape sel o t sx sy)
          (mask_fill_pass rast sel
            (mask_scale sel o t sx sy).1 (mask_scale sel o t sx sy).2
            (mask_fov sel o (mask_scale sel o t sx sy).1 (mask_scale sel o t sx sy).2).1
            (mask_fov sel o (mask_scale sel o t sx sy).1 (mask_scale sel o t sx sy).2).2.1
            (mask_shape sel o t sx sy) fill))
      else
        mask_clear_pass rast sel
          (mask_scale sel o t sx sy).1 (mask_scale sel o t sx sy).2
          (mask_fov sel o (mask_scale sel o t sx sy).1 (mask_scale sel o t sx sy).2).1
          (mask_fov sel o (mask_scale sel o t sx sy).1 (mask_scale sel o t sx sy).2).2.1
          (mask_shape sel o t sx sy)
          (mask_fill_pass rast sel
            (mask_scale sel o t sx sy).1 (mask_scale sel o t sx sy).2
            (mask_fov sel o (mask_scale sel o t sx sy).1 (mask_scale sel o t sx sy).2).1
            (mask_fov sel o (mask_scale sel o t sx sy).1 (mask_scale sel o t sx sy).2).2.1
            (mask_shape sel o t sx sy) fill)) := rfl

/-- C10: with any `fill_value` in `[0, 255]`, every pixel of the mask is
either 0 or `fill_value`, with and without `invert` — inversion swaps the
roles of the two values but introduces no third value. -/
theorem C10_mask_pixels_two_valued (sel : Selection) (o t : Option (Nat × Nat))
    (sx sy : ℚ) (inv : Bool) (fill : Nat) (rast : Rasterizer)
    (hfill : fill ≤ 255) :
    ∀ rc, (create_mask sel o t sx sy inv fill rast).pix rc = 0 ∨
      (create_mask sel o t sx sy inv fill rast).pix rc = fill := by
  have hmod : fill % 256 = fill := Nat.mod_eq_of_lt (by omega)
  have hbase := mask_canvas_two_valued rast sel
    (mask_scale sel o t sx sy).1 (mask_scale sel o t sx sy).2
    (mask_fov sel o (mask_scale sel o t sx sy).1 (mask_scale sel o t sx sy).2).1
    (mask_fov sel o (mask_scale sel o t sx sy).1 (mask_scale sel o t sx sy).2).2.1
    (mask_shape sel o t sx sy) fill
  rw [hmod] at hbase
  intro rc
  rw [create_mask_pix]
  cases inv with
  | false => simpa using hbase rc
  | true =>
      simpa using mask_invert_two_valued fill _ hfill hbase rc

/-- Witness for C10: concrete mask with a rasteriser that paints pixel
(0, 0); every pixel is 0 or 255, inverted or not. -/
theorem C10_mask_pixels_two_valued_witness :
    ((create_mask [⟨[(0, 0), (4, 0), (4, 4), (0, 4)], []⟩] none none 1 1 false 255
        (fun _ _ _ => [(0, 0)])).pix (0, 0) = 0 ∨
      (create_mask [⟨[(0, 0), (4, 0), (4, 4), (0, 4)], []⟩] none none 1 1 false 255
        (fun _ _ _ => [(0, 0)])).pix (0, 0) = 255) ∧
    ((create_mask [⟨[(0, 0), (4, 0), (4, 4), (0, 4)], []⟩] none none 1 1 true 255
        (fun _ _ _ => [(0, 0)])).pix (1, 1) = 0 ∨
      (create_mask [⟨[(0, 0), (4, 0), (4, 4), (0, 4)], []⟩] none none 1 1 true 255
        (fun _ _ _ => [(0, 0)])).pix (1, 1) = 255) :=
  ⟨C10_mask_pixels_two_valued _ _ _ _ _ _ _ _ (by decide) (0, 0),
   C10_mask_pixels_two_valued _ _ _ _ _ _ _ _ (by decide) (1, 1)⟩

/-! ## Claim theorems: polygon construction -/

/-- C7: a vertex group with fewer than 3 vertices yields no polygon — every
polygon in the output of `create_polygons` has at least 3 vertices — while
every group with at least 3 vertices is still processed into a polygon
carrying its group counter (the run is not aborted by a skipped group). -/
theorem C7_small_groups_skipped (points : List PointRow) :
    (∀ pg ∈ create_polygons points, 3 ≤ pg.2.length) ∧
    (∀ i grp, (pointGroups points)[i]? = some grp → 3 ≤ grp.length →
      (i, grp.map fun p => (pyTrunc p.x, pyTrunc p.y)) ∈ create_polygons points) := by
  constructor
  · intro pg hpg
    rw [create_polygons] at hpg
    rcases List.mem_filterMap.1 hpg with ⟨cg, _, hf⟩
    by_cases h3 : cg.2.length < 3
    · rw [if_pos h3] at hf
      exact absurd hf (by simp)
    · rw [if_neg h3] at hf
      have := Option.some.inj hf
      rw [← this]
      simpa using by omega
  · intro i grp hget hge
    rw [create_polygons]
    apply List.mem_filterMap.2
    refine ⟨(i, grp), ?_, ?_⟩
    · exact List.mk_mem_enum_iff_getElem?.2 hget
    · rw [if_neg (Nat.not_lt.2 hge)]

/-- Witness for C7: a 2-vertex group is skipped (the counter still
advances) and the following 3-vertex group is processed. -/
theorem C7_small_groups_skipped_witness :
    3 ≤ ((1 : Nat), ([(0, 0), (4, 0), (0, 4)] : List (Int × Int))).2.length ∧
    ((1 : Nat), [((0 : Int), (0 : Int)), (4, 0), (0, 4)]) ∈ create_polygons
      [⟨0, 0, 0, 0⟩, ⟨0, 0, 1, 0⟩,
       ⟨0, 1, 0, 0⟩, ⟨0, 1, 4, 0⟩, ⟨0, 1, 0, 4⟩] :=
  ⟨(C7_small_groups_skipped _).1 _
    ((C7_small_groups_skipped
      [⟨0, 0, 0, 0⟩, ⟨0, 0, 1, 0⟩,
       ⟨0, 1, 0, 0⟩, ⟨0, 1, 4, 0⟩, ⟨0, 1, 0, 4⟩]).2 1
      [⟨0, 1, 0, 0⟩, ⟨0, 1, 4, 0⟩, ⟨0, 1, 0, 4⟩] (by decide) (by decide)),
   (C7_small_groups_skipped
      [⟨0, 0, 0, 0⟩, ⟨0, 0, 1, 0⟩,
       ⟨0, 1, 0, 0⟩, ⟨0, 1, 4, 0⟩, ⟨0, 1, 0, 4⟩]).2 1
      [⟨0, 1, 0, 0⟩, ⟨0, 1, 4, 0⟩, ⟨0, 1, 0, 4⟩] (by decide) (by decide)⟩

/-! ## Claim theorems: identifier alignment (groupby model) -/

theorem sortedKeys_sorted (l : List Nat) : (sortedKeys l).Sorted (· < ·) := by
  have hle : (sortedKeys l).Sorted (· ≤ ·) :=
    (List.sorted_insertionSort (· ≤ ·) l).sublist (List.dedup_sublist _)
  exact hle.lt_of_le (List.nodup_dedup _)

theorem mem_sortedKeys (l : List Nat) (x : Nat) : x ∈ sortedKeys l ↔ x ∈ l := by
  rw [sortedKeys, List.mem_dedup]
  exact (List.perm_insertionSort (· ≤ ·) l).mem_iff

theorem sorted_lt_eq_of_mem_iff {l₁ l₂ : List Nat}
    (h₁ : l₁.Sorted (· < ·)) (h₂ : l₂.Sorted (· < ·))
    (hm : ∀ x, x ∈ l₁ ↔ x ∈ l₂) : l₁ = l₂ := by
  haveI : IsAntisymm Nat (· < ·) := ⟨fun a b hab hba => absurd hab (asymm hba)⟩
  have hn₁ : l₁.Nodup := h₁.imp ne_of_lt
  have hn₂ : l₂.Nodup := h₂.imp ne_of_lt
  exact List.eq_of_perm_of_sorted ((List.perm_ext_iff_of_nodup hn₁ hn₂).2 hm) h₁ h₂

theorem filter_key_flatMap {α : Type} (key : α → Nat) :
    ∀ (bs : List (Nat × List α)),
      (bs.map Prod.fst).Pairwise (· ≠ ·) →
      (∀ b ∈ bs, ∀ x ∈ b.2, key x = b.1) →
      ∀ b ∈ bs, (bs.flatMap Prod.snd).filter (fun x => key x == b.1) = b.2 := by
  intro bs
  induction bs with
  | nil => intro _ _ b hb; exact absurd hb (List.not_mem_nil b)
  | cons b0 rest ih =>
      intro hpair hkey b hb
      have hpair' : (rest.map Prod.fst).Pairwise (· ≠ ·) :=
        (List.pairwise_cons.1 hpair).2
      have hhead : ∀ k ∈ rest.map Prod.fst, b0.1 ≠ k :=
        (List.pairwise_cons.1 hpair).1
      rw [List.flatMap_cons, List.filter_append]
      rcases List.mem_cons.1 hb with hb0 | hbr
      · subst hb0
        have e1 : b.2.filter (fun x => key x == b.1) = b.2 :=
          List.filter_eq_self.2 fun x hx => by
            simp [hkey b (List.mem_cons_self b rest) x hx]
        have e2 : (rest.flatMap Prod.snd).filter (fun x => key x == b.1) = [] := by
          apply List.filter_eq_nil_iff.2
          intro x hx
          rcases List.mem_flatMap.1 hx with ⟨b', hb', hxb'⟩
          have hk : key x = b'.1 := hkey b' (List.mem_cons_of_mem _ hb') x hxb'
          have hne : b.1 ≠ b'.1 :=
            hhead b'.1 (List.mem_map_of_mem Prod.fst hb')
          simp [hk, Ne.symm hne]
        rw [e1, e2, List.append_nil]
      · have e1 : b0.2.filter (fun x => key x == b.1) = [] := by
          apply List.filter_eq_nil_iff.2
          intro x hx
          have hk : key x = b0.1 := hkey b0 (List.mem_cons_self b0 rest) x hx
          have hne : b0.1 ≠ b.1 :=
            hhead b.1 (List.mem_map_of_mem Prod.fst hbr)
          simp [hk, hne]
        rw [e1, List.nil_append]
        exact ih hpair' (fun b' hb' => hkey b' (List.mem_cons_of_mem _ hb')) b hbr

/-- `groupsBy` recovers the blocks of a block-structured list: if the rows
come as contiguous nonempty blocks with strictly increasing keys, grouping
returns exactly those blocks. -/
theorem groupsBy_flatMap {α : Type} (key : α → Nat) (bs : List (Nat × List α))
    (hsort : (bs.map Prod.fst).Sorted (· < ·))
    (hne : ∀ b ∈ bs, b.2 ≠ [])
    (hkey : ∀ b ∈ bs, ∀ x ∈ b.2, key x = b.1) :
    groupsBy key (bs.flatMap Prod.snd) = bs.map Prod.snd := by
  have hkeys : sortedKeys ((bs.flatMap Prod.snd).map key) = bs.map Prod.fst := by
    apply sorted_lt_eq_of_mem_iff (sortedKeys_sorted _) hsort
    intro x
    rw [mem_sortedKeys, List.mem_map]
    constructor
    · rintro ⟨y, hy, rfl⟩
      rcases List.mem_flatMap.1 hy with ⟨b, hb, hyb⟩
      rw [hkey b hb y hyb]
      exact List.mem_map_of_mem Prod.fst hb
    · intro hx
      rcases List.mem_map.1 hx with ⟨b, hb, rfl⟩
      rcases List.exists_mem_of_ne_nil b.2 (hne b hb) with ⟨y, hy⟩
      exact ⟨y, List.mem_flatMap.2 ⟨b, hb, hy⟩, hkey b hb y hy⟩
  rw [groupsBy, hkeys, List.map_map]
  apply List.map_congr_left
  intro b hb
  exact filter_key_flatMap key bs (hsort.imp ne_of_lt) hkey b hb

theorem flatMap_filter_eq {α β : Type} (p : α → Bool) (g : α → List β)
    (h : ∀ a, p a = false → g a = []) :
    ∀ l : List α, (l.filter p).flatMap g = l.flatMap g := by
  intro l
  induction l with
  | nil => rfl
  | cons a l ih =>
      cases hpa : p a with
      | true => rw [List.filter_cons_of_pos hpa, List.flatMap_cons, List.flatMap_cons, ih]
      | false =>
          rw [List.filter_cons_of_neg (by simp [hpa]), List.flatMap_cons, h a hpa,
            List.nil_append, ih]

theorem mem_regionRows_region (a r : Nat) (reg : RegionTag) (x : PointRow)
    (hx : x ∈ regionRows a r reg) : x.region = r := by
  rcases List.mem_map.1 hx with ⟨v, _, rfl⟩
  rfl

theorem mem_annRows_annotationId (a : Nat) (ann : AnnotationTag) (x : PointRow)
    (hx : x ∈ annRows a ann) : x.annotationId = a := by
  rcases List.mem_flatMap.1 hx with ⟨rn, _, hxr⟩
  rcases List.mem_map.1 hxr with ⟨v, _, rfl⟩
  rfl

/-- Grouping one annotation's rows by region recovers the per-region row
blocks, in region order, provided every region has at least one vertex. -/
theorem groupsBy_region_annRows (a : Nat) (ann : AnnotationTag)
    (hv : ∀ reg ∈ ann.regions, reg.vertices ≠ []) :
    groupsBy (fun p => p.region) (annRows a ann) =
      ann.regions.enum.map fun rn => regionRows a rn.1 rn.2 := by
  have hrw : annRows a ann =
      (ann.regions.enum.map fun rn => (rn.1, regionRows a rn.1 rn.2)).flatMap Prod.snd := by
    rw [List.flatMap_map]
    rfl
  rw [hrw, groupsBy_flatMap, List.map_map]
  · rfl
  · rw [List.map_map]
    have he : ((Prod.fst ∘ fun rn : Nat × RegionTag => (rn.1, regionRows a rn.1 rn.2)) :
        Nat × RegionTag → Nat) = Prod.fst := rfl
    rw [he, List.enum_map_fst]
    exact List.pairwise_lt_range _
  · intro b hb
    rcases List.mem_map.1 hb with ⟨rn, hrn, rfl⟩
    obtain ⟨i, reg⟩ := rn
    have hregmem : reg ∈ ann.regions := by
      have := List.mk_mem_enum_iff_getElem?.1 hrn
      exact List.getElem?_mem this
    simp only [regionRows]
    exact fun hnil => hv reg hregmem (List.map_eq_nil_iff.1 hnil)
  · intro b hb x hx
    rcases List.mem_map.1 hb with ⟨rn, _, rfl⟩
    exact mem_regionRows_region a rn.1 rn.2 x hx

/-- Grouping the Points table by annotation recovers the nonempty
annotation row-blocks, in annotation order. -/
theorem groupsBy_ann_parse_points (xml : XmlDoc) :
    groupsBy (fun p => p.annotationId) (parse_points xml) =
      ((xml.enum.map fun an => (an.1, annRows an.1 an.2)).filter
        (fun b => !b.2.isEmpty)).map Prod.snd := by
  have hrw : parse_points xml =
      ((xml.enum.map fun an => (an.1, annRows an.1 an.2)).filter
        (fun b => !b.2.isEmpty)).flatMap Prod.snd := by
    rw [flatMap_filter_eq _ _ (fun b hb => by
      have : b.2.isEmpty = true := by
        cases hbe : b.2.isEmpty
        · rw [hbe] at hb; exact absurd hb (by decide)
        · rfl
      exact List.isEmpty_iff.1 this)]
    rw [List.flatMap_map]
    rfl
  rw [hrw, groupsBy_flatMap]
  · have hsub : (((xml.enum.map fun an => (an.1, annRows an.1 an.2)).filter
        (fun b => !b.2.isEmpty)).map Prod.fst).Sublist
        ((xml.enum.map fun an => (an.1, annRows an.1 an.2)).map Prod.fst) :=
      (List.filter_sublist _).map Prod.fst
    have he : ((xml.enum.map fun an => (an.1, annRows an.1 an.2)).map Prod.fst) =
        List.range xml.length := by
      rw [List.map_map]
      have : ((Prod.fst ∘ fun an : Nat × AnnotationTag => (an.1, annRows an.1 an.2)) :
          Nat × AnnotationTag → Nat) = Prod.fst := rfl
      rw [this, List.enum_map_fst]
    exact List.Pairwise.sublist (he ▸ hsub) (List.pairwise_lt_range _)
  · intro b hb
    have := List.of_mem_filter hb
    cases hbe : b.2.isEmpty
    · exact fun hnil => by rw [hnil] at hbe; exact absurd hbe (by decide)
    · rw [hbe] at this; exact absurd this (by decide)
  · intro b hb x hx
    rcases List.mem_map.1 (List.mem_of_mem_filter hb) with ⟨an, _, rfl⟩
    exact mem_annRows_annotationId an.1 an.2 x hx

theorem flatMap_enum_snd {α β : Type} (l : List α) (G : α → List β) :
    l.enum.flatMap (fun an => G an.2) = l.flatMap G := by
  calc l.enum.flatMap (fun an => G an.2)
      = (l.enum.map Prod.snd).flatMap G := (List.flatMap_map _ _ _).symm
    _ = l.flatMap G := by rw [List.enum_map_snd]

/-- The vertex groups traversed by `create_polygons` on a parsed document
with no vertex-free regions: exactly one group per region, in Regions-table
order. -/
theorem pointGroups_parse (xml : XmlDoc)
    (h : ∀ ann ∈ xml, ∀ reg ∈ ann.regions, reg.vertices ≠ []) :
    pointGroups (parse_points xml) =
      xml.enum.flatMap fun an =>
        an.2.regions.enum.map fun rn => regionRows an.1 rn.1 rn.2 := by
  rw [pointGroups, groupsBy_ann_parse_points, List.flatMap_map]
  rw [flatMap_filter_eq _ _ (fun b hb => by
    have hbe : b.2.isEmpty = true := by
      cases hbe : b.2.isEmpty
      · rw [hbe] at hb; exact absurd hb (by decide)
      · rfl
    rw [List.isEmpty_iff.1 hbe]
    rfl)]
  rw [List.flatMap_map]
  apply List.flatMap_congr
  intro an han
  obtain ⟨i, ann⟩ := an
  apply groupsBy_region_annRows
  intro reg hreg
  exact h ann (List.getElem?_mem (List.mk_mem_enum_iff_getElem?.1 han)) reg hreg

/-- C3 counterexample: a region with zero vertices produces no vertex
group, so the polygon counter skips it while the Regions table does not:
in a document whose first region has no vertices and whose second region
is a triangle, the triangle gets `Polygon_ID` 0 although its originating
region sits at position 1 of the Regions table (where row 0 is a
`NegativeROA` region), so the positional lookup reads the wrong row. -/
theorem C3_cex :
    create_polygons (parse_points [⟨[⟨0, 1, []⟩, ⟨1, 0, [⟨0, 0⟩, ⟨4, 0⟩, ⟨0, 4⟩]⟩]⟩]) =
      [(0, [((0 : Int), (0 : Int)), (4, 0), (0, 4)])] ∧
    (regionsFlat [⟨[⟨0, 1, []⟩, ⟨1, 0, [⟨0, 0⟩, ⟨4, 0⟩, ⟨0, 4⟩]⟩]⟩]).enum.filterMap
      (fun kr => if kr.2.vertices.length < 3 then none
        else some (kr.1, kr.2.vertices.map fun v => (pyTrunc v.x, pyTrunc v.y))) =
      [(1, [((0 : Int), (0 : Int)), (4, 0), (0, 4)])] ∧
    create_polygons (parse_points [⟨[⟨0, 1, []⟩, ⟨1, 0, [⟨0, 0⟩, ⟨4, 0⟩, ⟨0, 4⟩]⟩]⟩]) ≠
      (regionsFlat [⟨[⟨0, 1, []⟩, ⟨1, 0, [⟨0, 0⟩, ⟨4, 0⟩, ⟨0, 4⟩]⟩]⟩]).enum.filterMap
      (fun kr => if kr.2.vertices.length < 3 then none
        else some (kr.1, kr.2.vertices.map fun v => (pyTrunc v.x, pyTrunc v.y))) := by
  refine ⟨by decide, by decide, by decide⟩

/-- C3 (amended): provided every region contributes at least one vertex,
the `Polygon_ID` of each retained polygon equals the positional row index
of its originating region in the Regions table — `create_polygons` returns
exactly the ≥3-vertex regions, indexed by their table position, with their
truncated vertices — and the `Selected` / `NegativeROA` attributes at that
position are those of the originating region.  (A region with zero
vertices produces no group, is not counted, and shifts all later ids; see
the counterexample.) -/
theorem C3_polygon_ids_align (xml : XmlDoc)
    (h : ∀ ann ∈ xml, ∀ reg ∈ ann.regions, reg.vertices ≠ []) :
    create_polygons (parse_points xml) =
      (regionsFlat xml).enum.filterMap (fun kr =>
        if kr.2.vertices.length < 3 then none
        else some (kr.1, kr.2.vertices.map fun v => (pyTrunc v.x, pyTrunc v.y))) ∧
    (parse_regions xml).map (fun r => (r.selected, r.negativeROA)) =
      (regionsFlat xml).map (fun reg => (reg.selected, reg.negativeROA)) := by
  constructor
  · rw [create_polygons, pointGroups_parse xml h]
    have hmap : (xml.enum.flatMap fun an =>
          an.2.regions.enum.map fun rn => regionRows an.1 rn.1 rn.2)
        = (xml.enum.flatMap fun an =>
            an.2.regions.enum.map fun rn => (an.1, rn.1, rn.2)).map
            (fun t => regionRows t.1 t.2.1 t.2.2) := by
      rw [List.map_flatMap]
      apply List.flatMap_congr
      intro an _
      rw [List.map_map]
      rfl
    have hflat : regionsFlat xml
        = (xml.enum.flatMap fun an =>
            an.2.regions.enum.map fun rn => (an.1, rn.1, rn.2)).map (fun t => t.2.2) := by
      rw [regionsFlat, List.map_flatMap, ← flatMap_enum_snd xml (fun ann => ann.regions)]
      apply List.flatMap_congr
      intro an _
      rw [List.map_map]
      have : ((fun t : Nat × Nat × RegionTag => t.2.2) ∘
          fun rn : Nat × RegionTag => (an.1, rn.1, rn.2)) = Prod.snd := rfl
      rw [this, List.enum_map_snd]
    rw [hmap, hflat, List.enum_map, List.enum_map, List.filterMap_map, List.filterMap_map]
    have hfun : ∀ kt : Nat × (Nat × Nat × RegionTag),
        ((fun cg : Nat × List PointRow =>
            if cg.2.length < 3 then none
            else some (cg.1, cg.2.map fun p => (pyTrunc p.x, pyTrunc p.y))) ∘
          Prod.map id fun t => regionRows t.1 t.2.1 t.2.2) kt =
        ((fun kr : Nat × RegionTag =>
            if kr.2.vertices.length < 3 then none
            else some (kr.1, kr.2.vertices.map fun v => (pyTrunc v.x, pyTrunc v.y))) ∘
          Prod.map id fun t : Nat × Nat × RegionTag => t.2.2) kt := by
      intro kt
      obtain ⟨k, t⟩ := kt
      simp only [Function.comp, Prod.map, id, regionRows, List.length_map, List.map_map]
      rfl
    rw [funext hfun]
  · rw [parse_regions, regionsFlat, List.map_flatMap, List.map_flatMap,
      ← flatMap_enum_snd xml (fun ann => ann.regions.map fun reg =>
        ((reg.selected, reg.negativeROA) : Int × Int))]
    apply List.flatMap_congr
    intro an _
    rw [List.map_map]
    rfl

/-- Witness for C3 (amended): two annotations with a skipped 2-vertex
region; ids still match Regions-table positions. -/
theorem C3_polygon_ids_align_witness :
    create_polygons (parse_points
      [⟨[⟨0, 0, [⟨0, 0⟩, ⟨1, 0⟩]⟩, ⟨1, 1, [⟨0, 0⟩, ⟨4, 0⟩, ⟨0, 4⟩]⟩]⟩,
       ⟨[⟨0, 0, [⟨5, 5⟩, ⟨9, 5⟩, ⟨5, 9⟩, ⟨6, 6⟩]⟩]⟩]) =
      (regionsFlat
        [⟨[⟨0, 0, [⟨0, 0⟩, ⟨1, 0⟩]⟩, ⟨1, 1, [⟨0, 0⟩, ⟨4, 0⟩, ⟨0, 4⟩]⟩]⟩,
         ⟨[⟨0, 0, [⟨5, 5⟩, ⟨9, 5⟩, ⟨5, 9⟩, ⟨6, 6⟩]⟩]⟩]).enum.filterMap (fun kr =>
        if kr.2.vertices.length < 3 then none
        else some (kr.1, kr.2.vertices.map fun v => (pyTrunc v.x, pyTrunc v.y))) ∧
    (parse_regions
      [⟨[⟨0, 0, [⟨0, 0⟩, ⟨1, 0⟩]⟩, ⟨1, 1, [⟨0, 0⟩, ⟨4, 0⟩, ⟨0, 4⟩]⟩]⟩,
       ⟨[⟨0, 0, [⟨5, 5⟩, ⟨9, 5⟩, ⟨5, 9⟩, ⟨6, 6⟩]⟩]⟩]).map
        (fun r => (r.selected, r.negativeROA)) =
      (regionsFlat
        [⟨[⟨0, 0, [⟨0, 0⟩, ⟨1, 0⟩]⟩, ⟨1, 1, [⟨0, 0⟩, ⟨4, 0⟩, ⟨0, 4⟩]⟩]⟩,
         ⟨[⟨0, 0, [⟨5, 5⟩, ⟨9, 5⟩, ⟨5, 9⟩, ⟨6, 6⟩]⟩]⟩]).map
        (fun reg => (reg.selected, reg.negativeROA)) :=
  C3_polygon_ids_align _ (by decide)

end Xml2Mask
